import Mathlib

/-!
Verification development for the coordination core of a mesh-VPN control
plane (headscale).  The definitions below are a shallow embedding of the
Go sources: `acls.go` (ACL compiler), the long-poll map engine
(`PollNetMapHandler` / `PollNetMapStream` / `keepAlive`) and the OIDC
hand-off (`RegisterOIDC` / `OIDCCallback`).  Functions of the repository
that are not part of the provided sources (store CRUD, the outdated
check, the map assembler, the auth-callback registration) are modelled
from the specification and marked as such in their doc comments.

Go strings are byte slices; all separators used by the code (`:`, `,`,
`-`, `@`) are single ASCII bytes, so `strings.Split` and
`strings.HasPrefix` coincide with the character-list operations below.
-/

namespace headscale

deriving instance DecidableEq for Except

/-- Auxiliary recursion of `strings.Split` over the character list with an
accumulator for the current field (fields are emitted in order). -/
def splitCharsAux (sep : Char) : List Char → List Char → List (List Char)
  | [], acc => [acc.reverse]
  | c :: cs, acc =>
    if c == sep then acc.reverse :: splitCharsAux sep cs []
    else splitCharsAux sep cs (c :: acc)

/-- Model of `strings.Split(s, sep)` for a one-character separator. -/
def strSplit (s : String) (sep : Char) : List String :=
  (splitCharsAux sep s.data []).map String.mk

/-- Character-list core of `strings.HasPrefix`. -/
def charsStartWith : List Char → List Char → Bool
  | _, [] => true
  | [], _ :: _ => false
  | c :: cs, p :: ps => c == p && charsStartWith cs ps

/-- Model of `strings.HasPrefix(s, p)`. -/
def strStartsWith (s p : String) : Bool := charsStartWith s.data p.data

/-- The tagged errors of `acls.go`, plus the two classes of error that
`strconv.ParseUint` produces (`ErrSyntax` for a non-numeral,
`ErrRange` for a value outside the bit size) — `expandPorts` returns
those `strconv` errors unwrapped. -/
inductive Error where
  | emptyPolicy
  | invalidAction
  | invalidUserSection
  | invalidGroup
  | invalidTag
  | invalidNamespace
  | invalidPortFormat
  | namespaceNotFound
  | strconvSyntax
  | strconvRange
  deriving DecidableEq, Repr

/-- Model of `tailcfg.PortRange`. -/
structure PortRange where
  first : Nat
  last : Nat
  deriving DecidableEq, Repr

/-- Model of `tailcfg.NetPortRange`. -/
structure NetPortRange where
  ip : String
  ports : PortRange
  deriving DecidableEq, Repr

/-- Model of `tailcfg.FilterRule` (the two fields `generateACLRules` fills). -/
structure FilterRule where
  srcIPs : List String
  dstPorts : List NetPortRange
  deriving DecidableEq, Repr

/-- The part of `tailcfg.Hostinfo` the core reads. -/
structure HostInfo where
  hostname : String
  requestTags : List String
  deriving DecidableEq, Repr

/-- A node record.  `hostInfo = none` models an empty stored blob
(`len(machine.HostInfo) == 0`); `GetHostInfo` is modelled as returning
the stored structure (the blob is written by the server itself from a
marshalled structure). -/
structure Machine where
  id : Nat
  name : String
  namespaceName : String
  ipAddresses : List String
  hostInfo : Option HostInfo
  endpoints : List String
  discoKey : String
  lastSeen : Option Nat
  lastSuccessfulUpdate : Option Nat
  deriving DecidableEq, Repr

/-- One entry of the `acls` section of the policy. -/
structure ACL where
  action : String
  users : List String
  ports : List String
  deriving DecidableEq, Repr

/-- The policy document `ACLPolicy`: groups, tag owners, hosts (host values kept as their
IP/CIDR literal, which is what `netaddr.IPPrefix.String` renders), and
the ordered ACL list.  The Go maps are used only through key lookup, so
association lists are a faithful model. -/
structure ACLPolicy where
  groups : List (String × List String)
  tagOwners : List (String × List String)
  hosts : List (String × String)
  acls : List ACL
  deriving DecidableEq, Repr

/-- Modelled from the spec: "Empty → `empty_policy`" — a policy is zero
when every section is empty (`ACLPolicy.IsZero` is not among the
provided sources). -/
def ACLPolicy.IsZero (p : ACLPolicy) : Bool :=
  p.groups.isEmpty && p.tagOwners.isEmpty && p.hosts.isEmpty && p.acls.isEmpty

/-- The server state the claims touch: the node store (namespaces and
machines), the loaded policy, the compiled rules, and the global
change-epoch stamp `last_state_change` (instants are naturals, `0`
standing for the zero instant). -/
structure Headscale where
  namespaces : List String
  machines : List Machine
  aclPolicy : ACLPolicy
  aclRules : List FilterRule
  lastStateChange : Nat
  deriving DecidableEq, Repr

/-- Modelled from the spec (store gateway, §4.7): `GetNamespace` returns
the namespace record when the name exists and `errNamespaceNotFound`
otherwise. -/
def GetNamespace (h : Headscale) (name : String) : Except Error String :=
  if h.namespaces.contains name then .ok name else .error .namespaceNotFound

/-- Modelled from the spec (store gateway, §4.7): machines of an existing
namespace, in store order; `errNamespaceNotFound` for an unknown name. -/
def ListMachinesInNamespace (h : Headscale) (name : String) :
    Except Error (List Machine) :=
  if h.namespaces.contains name then
    .ok (h.machines.filter (fun m => m.namespaceName == name))
  else .error .namespaceNotFound

/-- Model of `expandGroup`: members of a registered group; `invalid_group` when the
group is unknown or one of its members is itself a group. -/
def expandGroup (h : Headscale) (group : String) : Except Error (List String) :=
  match h.aclPolicy.groups.lookup group with
  | none => .error .invalidGroup
  | some gs =>
    if gs.any (fun g => strStartsWith g "group:") then .error .invalidGroup
    else .ok gs

/-- The owner loop of `expandTagOwners`: each owner is a namespace or a
group expanded in place, first failure wins. -/
def expandTagOwnersAux (h : Headscale) : List String → Except Error (List String)
  | [] => .ok []
  | ow :: rest =>
    if strStartsWith ow "group:" then
      match expandGroup h ow with
      | .error e => .error e
      | .ok gs =>
        match expandTagOwnersAux h rest with
        | .error e => .error e
        | .ok os => .ok (gs ++ os)
    else
      match expandTagOwnersAux h rest with
      | .error e => .error e
      | .ok os => .ok (ow :: os)

/-- Model of `expandTagOwners`: `invalid_tag` when the policy has no entry for the
tag, else the owner namespaces. -/
def expandTagOwners (h : Headscale) (owner : String) : Except Error (List String) :=
  match h.aclPolicy.tagOwners.lookup owner with
  | none => .error .invalidTag
  | some ows => expandTagOwnersAux h ows

/-- IPs a machine contributes under a tag alias: one copy of its address
list per occurrence of the alias in `host_info.RequestTags`; nothing when
the stored host-info blob is empty. -/
def machineTagIPs (al : String) (m : Machine) : List String :=
  match m.hostInfo with
  | none => []
  | some hi =>
    ((hi.requestTags.filter (fun t => al == t)).map (fun _ => m.ipAddresses)).flatten

/-- The owner loop of the `tag:` branch of `expandAlias`: machines of each
owner namespace (unknown namespaces are skipped — the code continues on
`errNamespaceNotFound`). -/
def tagOwnerIPs (h : Headscale) (al : String) : List String → List String
  | [] => []
  | ns :: rest =>
    (match ListMachinesInNamespace h ns with
     | .error _ => []
     | .ok ms => (ms.map (machineTagIPs al)).flatten) ++ tagOwnerIPs h al rest

/-- The `group:` branch of `expandAlias`: all IPs of every member
namespace; any listing failure is reported as `invalid_namespace`. -/
def groupNamespacesIPs (h : Headscale) : List String → Except Error (List String)
  | [] => .ok []
  | ns :: rest =>
    match ListMachinesInNamespace h ns with
    | .error _ => .error .invalidNamespace
    | .ok nodes =>
      match groupNamespacesIPs h rest with
      | .error e => .error e
      | .ok tail => .ok ((nodes.map (fun n => n.ipAddresses)).flatten ++ tail)

/-- Dotted-quad field as `inet.af/netaddr` accepts it: 1–3 digits, no
leading zero, value ≤ 255.  (The model covers the IPv4 textual forms the
policy language exercises; on these, `ParseIP` followed by `String()` is
the identity, which is how the code's `ip.String()` is rendered below.) -/
def validIPv4Field (s : String) : Bool :=
  match s.data with
  | [] => false
  | c :: cs =>
    (c :: cs).all Char.isDigit && (c :: cs).length ≤ 3
      && !(c == '0' && cs ≠ [])
      && (c :: cs).foldl (fun a d => a * 10 + (d.toNat - 48)) 0 ≤ 255

/-- Test that `netaddr.ParseIP` succeeds on a dotted-quad literal. -/
def validIPv4 (s : String) : Bool :=
  match strSplit s '.' with
  | [a, b, c, d] => validIPv4Field a && validIPv4Field b && validIPv4Field c && validIPv4Field d
  | _ => false

/-- Test that `netaddr.ParseIPPrefix` succeeds on an IPv4 CIDR literal: address
slash decimal bit count ≤ 32 (canonical digits, so `String()` round
trips). -/
def validCIDRv4 (s : String) : Bool :=
  match strSplit s '/' with
  | [ip, bits] =>
    validIPv4 ip &&
      (match bits.data with
       | [] => false
       | c :: cs =>
         (c :: cs).all Char.isDigit && !(c == '0' && cs ≠ [])
           && (c :: cs).foldl (fun a d => a * 10 + (d.toNat - 48)) 0 ≤ 32)
  | _ => false

/-- Model of `expandAlias`, the alternation of `acls.go` lines 180-266 in source
order: `*`, `group:` member IPs, owner-gated `tag:` expansion, namespace
IPs, policy host literal, IP literal, CIDR literal, else
`invalid_user_section`. -/
def expandAlias (h : Headscale) (al : String) : Except Error (List String) :=
  if al == "*" then .ok ["*"]
  else if strStartsWith al "group:" then
    match expandGroup h al with
    | .error e => .error e
    | .ok namespaces => groupNamespacesIPs h namespaces
  else if strStartsWith al "tag:" then
    match expandTagOwners h al with
    | .error e => .error e
    | .ok owners => .ok (tagOwnerIPs h al owners)
  else
    match GetNamespace h al with
    | .ok n =>
      (match ListMachinesInNamespace h n with
       | .error e => .error e
       | .ok nodes => .ok ((nodes.map (fun m => m.ipAddresses)).flatten))
    | .error _ =>
      match h.aclPolicy.hosts.lookup al with
      | some hostVal => .ok [hostVal]
      | none =>
        if validIPv4 al then .ok [al]
        else if validCIDRv4 al then .ok [al]
        else .error .invalidUserSection

/-- Model of `strconv.ParseUint(s, 10, 16)`: a non-empty all-digit numeral, value
range-checked against the 16-bit size (the Go parser range-checks while
scanning; the classification of inputs into success / `ErrSyntax` /
`ErrRange` is the same). -/
def parseUint16 (s : String) : Except Error Nat :=
  match s.data with
  | [] => .error .strconvSyntax
  | c :: cs =>
    if (c :: cs).all Char.isDigit then
      let n := (c :: cs).foldl (fun a d => a * 10 + (d.toNat - 48)) 0
      if n ≤ 65535 then .ok n else .error .strconvRange
    else .error .strconvSyntax

/-- The comma loop of `expandPorts`: each portion splits on `-` into one
bound (`N`) or two (`N-M`); any other shape is `invalid_port_format`,
and a bad bound surfaces the `strconv` error. -/
def expandPortsAux : List String → Except Error (List PortRange)
  | [] => .ok []
  | portStr :: rest =>
    match strSplit portStr '-' with
    | [p] =>
      (match parseUint16 p with
       | .error e => .error e
       | .ok port =>
         match expandPortsAux rest with
         | .error e => .error e
         | .ok ps => .ok (PortRange.mk port port :: ps))
    | [f, l] =>
      (match parseUint16 f with
       | .error e => .error e
       | .ok fv =>
         match parseUint16 l with
         | .error e => .error e
         | .ok lv =>
           match expandPortsAux rest with
           | .error e => .error e
           | .ok ps => .ok (PortRange.mk fv lv :: ps))
    | _ => .error .invalidPortFormat

/-- Model of `expandPorts`: `*` is the full range, otherwise the comma-separated
list of port portions. -/
def expandPorts (portsStr : String) : Except Error (List PortRange) :=
  if portsStr == "*" then .ok [PortRange.mk 0 65535]
  else expandPortsAux (strSplit portsStr ',')

/-- Model of `generateACLPolicyDestPorts`: split the dest on `:`; 2 tokens (or 3,
re-joining the first two for a `tag:x:port` shape) give the alias and the
trailing port-spec; the expanded host IPs are crossed with the expanded
port ranges. -/
def generateACLPolicyDestPorts (h : Headscale) (d : String) :
    Except Error (List NetPortRange) :=
  let tokens := strSplit d ':'
  if tokens.length < 2 || tokens.length > 3 then .error .invalidPortFormat
  else
    let al :=
      if tokens.length == 2 then tokens.headD ""
      else tokens.headD "" ++ ":" ++ (tokens.drop 1).headD ""
    match expandAlias h al with
    | .error e => .error e
    | .ok expanded =>
      match expandPorts (tokens.getLastD "") with
      | .error e => .error e
      | .ok ports =>
        .ok ((expanded.map (fun dd => ports.map (fun p => NetPortRange.mk dd p))).flatten)

/-- Model of `generateACLPolicySrcIP`, which just defers to `expandAlias`. -/
def generateACLPolicySrcIP (h : Headscale) (u : String) : Except Error (List String) :=
  expandAlias h u

/-- The user loop of `generateACLRules`: expansions concatenated in
order, first failure wins. -/
def expandSrcs (h : Headscale) : List String → Except Error (List String)
  | [] => .ok []
  | u :: us =>
    match generateACLPolicySrcIP h u with
    | .error e => .error e
    | .ok srcs =>
      match expandSrcs h us with
      | .error e => .error e
      | .ok rest => .ok (srcs ++ rest)

/-- The ports loop of `generateACLRules`: dest expansions concatenated in
order, first failure wins. -/
def expandDests (h : Headscale) : List String → Except Error (List NetPortRange)
  | [] => .ok []
  | d :: ds =>
    match generateACLPolicyDestPorts h d with
    | .error e => .error e
    | .ok dests =>
      match expandDests h ds with
      | .error e => .error e
      | .ok rest => .ok (dests ++ rest)

/-- The ACL loop of `generateACLRules`: per entry, the action gate first,
then users, then ports, one `FilterRule` per entry in policy order. -/
def generateACLRulesAux (h : Headscale) : List ACL → Except Error (List FilterRule)
  | [] => .ok []
  | acl :: rest =>
    if acl.action ≠ "accept" then .error .invalidAction
    else
      match expandSrcs h acl.users with
      | .error e => .error e
      | .ok srcIPs =>
        match expandDests h acl.ports with
        | .error e => .error e
        | .ok destPorts =>
          match generateACLRulesAux h rest with
          | .error e => .error e
          | .ok rules => .ok (FilterRule.mk srcIPs destPorts :: rules)

/-- Model of `generateACLRules` over the loaded policy. -/
def generateACLRules (h : Headscale) : Except Error (List FilterRule) :=
  generateACLRulesAux h h.aclPolicy.acls

/-- Model of `UpdateACLRules`: `h.aclRules` is assigned only when rule generation
succeeds; on failure the state is returned untouched together with the
error. -/
def UpdateACLRules (h : Headscale) : Headscale × Option Error :=
  match generateACLRules h with
  | .error e => (h, some e)
  | .ok rules => ({ h with aclRules := rules }, none)

/-- Model of `LoadACLPolicy` from the point where the policy document has been
read and unmarshalled (the file and JSON failures before that return
without touching any state): a zero policy is rejected as `empty_policy`
before anything is stored, otherwise `h.aclPolicy` is set and the rules
are recompiled. -/
def LoadACLPolicy (h : Headscale) (policy : ACLPolicy) : Headscale × Option Error :=
  if policy.IsZero then (h, some .emptyPolicy)
  else UpdateACLRules { h with aclPolicy := policy }

/-- The alias alternation as §4.3 of the specification enumerates it:
`*`; `group:` member-namespace IPs; owner-gated `tag:` expansion; an
existing namespace's node IPs; a `hosts` literal; an IP literal,
yielding itself; a CIDR literal, yielding itself; anything else
`invalid_user_section`. -/
def expandAliasSpec (h : Headscale) (al : String) : Except Error (List String) :=
  if al == "*" then .ok ["*"]
  else if strStartsWith al "group:" then
    (expandGroup h al).bind (groupNamespacesIPs h)
  else if strStartsWith al "tag:" then
    (expandTagOwners h al).map (tagOwnerIPs h al)
  else if h.namespaces.contains al then
    .ok (((h.machines.filter (fun m => m.namespaceName == al)).map
      (fun m => m.ipAddresses)).flatten)
  else
    match h.aclPolicy.hosts.lookup al with
    | some v => .ok [v]
    | none =>
      if validIPv4 al then .ok [al]
      else if validCIDRv4 al then .ok [al]
      else .error .invalidUserSection

/-- Owner namespaces of a tag-owner list as the specification words it:
each owner is a namespace, or a group expanded one level. -/
def ownersOf (h : Headscale) : List String → List String
  | [] => []
  | ow :: rest =>
    (if strStartsWith ow "group:" then (h.aclPolicy.groups.lookup ow).getD []
     else [ow]) ++ ownersOf h rest

/-- One port portion as §4.3 of the specification words it: `N` or `N-M`
decimals; any other dash shape is `invalid_port_format`. -/
def portRangeOfToken (p : String) : Except Error PortRange :=
  match strSplit p '-' with
  | [n] => (parseUint16 n).map (fun v => PortRange.mk v v)
  | [f, l] => (parseUint16 f).bind (fun a => (parseUint16 l).map (fun b => PortRange.mk a b))
  | _ => .error .invalidPortFormat

/-- The port-spec as the specification words it: `*` is the full range,
else the comma-separated portions parsed independently in order. -/
def expandPortsSpec (s : String) : Except Error (List PortRange) :=
  if s == "*" then .ok [PortRange.mk 0 65535]
  else (strSplit s ',').mapM portRangeOfToken

/-- The fields of `tailcfg.MapRequest` the handler reads. -/
structure MapRequest where
  readOnly : Bool
  omitPeers : Bool
  stream : Bool
  hostinfo : HostInfo
  endpoints : List String
  discoKey : String
  deriving DecidableEq, Repr

/-- Modelled from the spec (§3, §4.5): `setLastStateChangeToNow` advances
the global change-epoch clock to the current instant. -/
def setLastStateChangeToNow (h : Headscale) (now : Nat) : Headscale :=
  { h with lastStateChange := now }

/-- Modelled from the spec (§3): a node is outdated iff
`last_successful_update < last_state_change`; a missing stamp is the
zero instant. -/
def isOutdated (h : Headscale) (m : Machine) : Bool :=
  m.lastSuccessfulUpdate.getD 0 < h.lastStateChange

/-- Observable actions of one `/machine/:id/map` request, in the order
the handler performs them. -/
inductive Act where
  | save
  | writeMapData
  | respondError (status : Nat)
  | advanceEpoch
  | notifyPeers
  | streamSession
  deriving DecidableEq, Repr

/-- Outcome of `PollNetMapHandler`: its action trace, the node record it
saved, and the server state. -/
structure HandlerResult where
  trace : List Act
  machine : Machine
  server : Headscale
  deriving DecidableEq, Repr

/-- Model of `PollNetMapHandler` from the point where the request has been decoded
and the machine row found (the parse/decode/unknown-key failures return
a 4xx before touching anything).  The map assembler (`getMapResponse`,
not among the provided sources) is modelled from the spec as always
producing a map, so the 500 branch on assembly failure is not taken.
Name, host info and disco key are stored unconditionally; endpoints and
`last_seen` only for a non-read-only request; a read-only request is
answered before the epoch moves; otherwise the epoch advances and the
request is dispatched on (OmitPeers, Stream). -/
def pollNetMapHandler (h : Headscale) (m : Machine) (req : MapRequest)
    (now : Nat) : HandlerResult :=
  let m1 := { m with name := req.hostinfo.hostname, hostInfo := some req.hostinfo,
                     discoKey := req.discoKey }
  let m2 := if !req.readOnly then { m1 with endpoints := req.endpoints, lastSeen := some now }
            else m1
  if req.readOnly then
    { trace := [.save, .writeMapData], machine := m2, server := h }
  else
    let h1 := setLastStateChangeToNow h now
    if req.omitPeers && !req.stream then
      { trace := [.save, .advanceEpoch, .writeMapData, .notifyPeers],
        machine := m2, server := h1 }
    else if req.omitPeers && req.stream then
      { trace := [.save, .advanceEpoch, .respondError 400],
        machine := m2, server := h1 }
    else
      { trace := [.save, .advanceEpoch, .writeMapData, .notifyPeers, .streamSession],
        machine := m2, server := h1 }

/-- No map bytes go out before the epoch advance: the first action among
{map write, stream session, epoch advance} is the epoch advance. -/
def epochBeforeData : List Act → Bool
  | [] => true
  | .writeMapData :: _ => false
  | .streamSession :: _ => false
  | .advanceEpoch :: _ => true
  | _ :: rest => epochBeforeData rest

/-- Kinds of frame a streaming session writes. -/
inductive FrameKind where
  | mapData
  | keepAliveData
  deriving DecidableEq, Repr

/-- The four sources of the `select` in `PollNetMapStream`. -/
inductive StreamEvent where
  | pollData
  | keepAliveMsg
  | updateSignal
  | disconnect
  deriving DecidableEq, Repr

/-- One iteration of the stream loop: the frames written, the node record
as saved, and whether the stream continues. -/
structure StreamStepResult where
  wrote : List FrameKind
  machine : Machine
  keepGoing : Bool
  deriving DecidableEq, Repr

/-- One `select` arm of `PollNetMapStream`: poll data writes the map and
stamps both `last_seen` and `last_successful_update`; a keep-alive frame
stamps only `last_seen`; an update signal re-checks the outdated gate and,
only then, writes a fresh map (assembled via the modelled `getMapResponse`)
and stamps `last_successful_update`; disconnect stamps `last_seen` and
ends the stream. -/
def pollNetMapStreamStep (h : Headscale) (m : Machine) (now : Nat) :
    StreamEvent → StreamStepResult
  | .pollData =>
    { wrote := [.mapData],
      machine := { m with lastSeen := some now, lastSuccessfulUpdate := some now },
      keepGoing := true }
  | .keepAliveMsg =>
    { wrote := [.keepAliveData], machine := { m with lastSeen := some now },
      keepGoing := true }
  | .updateSignal =>
    if isOutdated h m then
      { wrote := [.mapData], machine := { m with lastSuccessfulUpdate := some now },
        keepGoing := true }
    else { wrote := [], machine := m, keepGoing := true }
  | .disconnect =>
    { wrote := [], machine := { m with lastSeen := some now }, keepGoing := false }

/-- Modelled from the spec (§4.5): `UpdateMachine` re-reads the node row
from the store. -/
def UpdateMachine (h : Headscale) (m : Machine) : Machine :=
  (h.machines.find? (fun m2 => m2.id == m.id)).getD m

/-- The two tickers of the `keepAlive` goroutine. -/
inductive TickEvent where
  | keepAliveTick
  | updateCheckTick
  deriving DecidableEq, Repr

/-- One `select` arm of `keepAlive`: the 60-second ticker emits a
keep-alive frame onto the session's channel (`getMapKeepAliveResponse`,
not among the provided sources, modelled as always producing the frame);
the 30-second ticker re-reads the node row and requests an update — an
update-channel signal for the session — only when the node is outdated. -/
def keepAliveTickStep (h : Headscale) (m : Machine) : TickEvent → Option StreamEvent
  | .keepAliveTick => some .keepAliveMsg
  | .updateCheckTick =>
    let m1 := UpdateMachine h m
    if isOutdated h m1 then some .updateSignal else none

/-- A burst of update-channel signals handled back to back (one stream
iteration each, at the given instants). -/
def runUpdateSignals (h : Headscale) : Machine → List Nat → List FrameKind × Machine
  | m, [] => ([], m)
  | m, now :: rest =>
    let r := pollNetMapStreamStep h m now .updateSignal
    let (ws, mfin) := runUpdateSignals h r.machine rest
    (r.wrote ++ ws, mfin)

/-- The OIDC options the callback reads. -/
structure OIDCConfig where
  stripEmaildomain : Bool
  allowedDomains : List String
  allowedUsers : List String
  deriving DecidableEq, Repr

/-- The claims structure `IDTokenClaims`. -/
structure IDTokenClaims where
  name : String
  groups : List String
  email : String
  username : String
  deriving DecidableEq, Repr

/-- State the OIDC flow touches.  The process keeps one registration
cache holding both the OIDC state tokens (32-hex keys, bound to a machine
key) and the pending machine records (keyed by the machine key itself);
the two key spaces are disjoint, so the model keeps them in separate
fields.  `machines` maps registered machine keys to their namespace
(`machine_key` is unique, §3), standing for `GetMachineByMachineKey`. -/
structure OIDCState where
  registrationCache : List (String × String)
  pendingMachines : List String
  machines : List (String × String)
  namespaces : List String
  cfg : OIDCConfig
  deriving DecidableEq, Repr

/-- One lowercase hex digit, as `encoding/hex` renders nibbles. -/
def hexDigitOf (n : Nat) : Char := "0123456789abcdef".data.getD n '0'

/-- Model of `hex.EncodeToString`: two digits per byte, high nibble first. -/
def hexChars : List Nat → List Char
  | [] => []
  | b :: bs => hexDigitOf (b / 16) :: hexDigitOf (b % 16) :: hexChars bs

/-- A lowercase hexadecimal character. -/
def isHexDigit (c : Char) : Bool := "0123456789abcdef".data.contains c

/-- Model of `RegisterOIDC` (`GET /oidc/register/:mkey`): hex-encode the 16 random
bytes, truncate to 32 characters, store the machine key in the
registration cache under that state token (`Set` overrides an earlier
binding; lookups take the most recent), and redirect to the IdP carrying
the token. -/
def RegisterOIDC (s : OIDCState) (machineKeyStr : String) (randomBlob : List Nat) :
    OIDCState × String :=
  let stateStr := String.mk ((hexChars randomBlob).take 32)
  ({ s with registrationCache := (stateStr, machineKeyStr) :: s.registrationCache },
   stateStr)

/-- Model of the `strings.LastIndex(email, "@")` domain check: `none` when the email has no `@`,
otherwise the text after the last `@`. -/
def emailDomain (email : String) : Option String :=
  match strSplit email '@' with
  | [] => none
  | [_] => none
  | ps => ps.getLast?

/-- Modelled from the spec (S6): `NormalizeToFQDNRules` turns
`u@ex.com` into the namespace `u.ex.com`, or just `u` when the
configurable domain strip is on. -/
def NormalizeToFQDNRules (email : String) (stripEmaildomain : Bool) : String :=
  if stripEmaildomain then (strSplit email '@').headD email
  else String.mk (email.data.map (fun c => if c == '@' then '.' else c))

/-- Modelled from the spec (§4.2, §9): a pending registration is a value
in the cache keyed by the machine key; completing the auth path binds the
machine to the namespace and consumes the pending entry.  `none` when no
pending entry exists (the machine never initiated registration). -/
def RegisterMachineFromAuthCallback (s : OIDCState)
    (machineKeyStr namespaceName : String) : Option OIDCState :=
  if s.pendingMachines.contains machineKeyStr then
    some { s with
      pendingMachines := s.pendingMachines.erase machineKeyStr,
      machines := (machineKeyStr, namespaceName) :: s.machines }
  else none

/-- The answers `OIDCCallback` can give. -/
inductive OIDCOutcome where
  | wrongParams
  | domainMismatch
  | userMismatch
  | stateExpired
  | reauthenticated (email : String)
  | authenticated (email : String)
  | registrationFailed
  deriving DecidableEq, Repr

/-- Model of `OIDCCallback` from the point where the ID token has been exchanged
and verified (those are interactions with the external IdP, outside the
core per §1; their failure paths return before any server state is
read), with the verified claims as input.  The allow-list gates come
first, then the state token is looked up in the registration cache — a
missing entry is the `state has expired` answer; a machine key that is
already registered is answered with the reauthentication page; otherwise
the email is normalised to a namespace, the namespace created if absent,
and the machine registered.  No branch removes the state token from the
cache. -/
def OIDCCallback (s : OIDCState) (code state : String) (claims : IDTokenClaims) :
    OIDCState × OIDCOutcome :=
  if code == "" || state == "" then (s, .wrongParams)
  else if !s.cfg.allowedDomains.isEmpty &&
      !(match emailDomain claims.email with
        | none => false
        | some d => s.cfg.allowedDomains.contains d) then
    (s, .domainMismatch)
  else if !s.cfg.allowedUsers.isEmpty && !(s.cfg.allowedUsers.contains claims.email) then
    (s, .userMismatch)
  else
    match s.registrationCache.lookup state with
    | none => (s, .stateExpired)
    | some machineKeyStr =>
      if (s.machines.lookup machineKeyStr).isSome then
        (s, .reauthenticated claims.email)
      else
        let ns := NormalizeToFQDNRules claims.email s.cfg.stripEmaildomain
        let s1 := if s.namespaces.contains ns then s
                  else { s with namespaces := ns :: s.namespaces }
        match RegisterMachineFromAuthCallback s1 machineKeyStr ns with
        | some s2 => (s2, .authenticated claims.email)
        | none => (s1, .registrationFailed)

/-! Concrete states used by witnesses and counterexamples. -/

/-- An empty server. -/
def hs0 : Headscale :=
  { namespaces := [], machines := [], aclPolicy := ⟨[], [], [], []⟩,
    aclRules := [], lastStateChange := 0 }

/-- A bare node record. -/
def m0 : Machine :=
  { id := 1, name := "node", namespaceName := "alice",
    ipAddresses := ["100.64.0.1"], hostInfo := none, endpoints := [],
    discoKey := "", lastSeen := none, lastSuccessfulUpdate := none }

/-- A node that has already caught up with epoch 1. -/
def m1 : Machine := { m0 with lastSuccessfulUpdate := some 5 }

/-- A server whose epoch has moved to 1. -/
def hs1 : Headscale := { hs0 with lastStateChange := 1 }

/-! ### C2 — failed policy loads keep the compiled rules -/

/-- C2: a policy whose compilation fails leaves the previously compiled
filter-rule list unchanged — `UpdateACLRules` assigns `aclRules` only
when generation succeeds, and `LoadACLPolicy` rejects a zero policy as
`empty_policy` before compiling anything. -/
theorem C2_failed_load_keeps_rules (h : Headscale) (policy : ACLPolicy) :
    (policy.IsZero = true → LoadACLPolicy h policy = (h, some .emptyPolicy))
    ∧ (∀ e : Error, (LoadACLPolicy h policy).2 = some e →
        (LoadACLPolicy h policy).1.aclRules = h.aclRules)
    ∧ (∀ h' : Headscale,
        (∀ e, generateACLRules h' = .error e → UpdateACLRules h' = (h', some e))
        ∧ (∀ rules, generateACLRules h' = .ok rules →
            UpdateACLRules h' = ({ h' with aclRules := rules }, none))) := by
  refine ⟨?_, ?_, ?_⟩
  · intro hz
    simp [LoadACLPolicy, hz]
  · intro e he
    unfold LoadACLPolicy at he ⊢
    by_cases hz : policy.IsZero
    · simp [hz]
    · simp only [Bool.not_eq_true] at hz
      simp only [hz, Bool.false_eq_true, if_false] at he ⊢
      unfold UpdateACLRules at he ⊢
      cases hgen : generateACLRules { h with aclPolicy := policy } <;>
        simp [hgen] at he ⊢
  · intro h'
    constructor
    · intro e hgen
      simp [UpdateACLRules, hgen]
    · intro rules hgen
      simp [UpdateACLRules, hgen]

/-- A server that already holds one compiled rule. -/
def hRules : Headscale := { hs0 with aclRules := [FilterRule.mk ["*"] []] }

/-- A non-zero policy whose only entry is rejected (`invalid_action`). -/
def polReject : ACLPolicy := ⟨[], [], [], [ACL.mk "reject" [] []]⟩

theorem C2_witness :
    (LoadACLPolicy hRules polReject).2 = some Error.invalidAction
    ∧ (LoadACLPolicy hRules polReject).1.aclRules = hRules.aclRules :=
  ⟨by decide,
   (C2_failed_load_keeps_rules hRules polReject).2.1 Error.invalidAction (by decide)⟩

/-! ### C3 — update-channel and freshness-tick gating -/

/-- C3: on an update-channel signal the session writes a fresh full map
only when the node is outdated, stamping `last_successful_update` with
the current instant; the 30-second freshness tick signals the session
only when the re-read node is outdated; a burst of signals while the
node is up to date writes nothing and leaves the record unchanged. -/
theorem C3_update_signal_gate (h : Headscale) (m : Machine) (now : Nat) :
    (isOutdated h m = false →
        pollNetMapStreamStep h m now .updateSignal
          = { wrote := [], machine := m, keepGoing := true })
    ∧ (isOutdated h m = true →
        (pollNetMapStreamStep h m now .updateSignal).wrote = [.mapData]
        ∧ (pollNetMapStreamStep h m now .updateSignal).machine.lastSuccessfulUpdate
            = some now)
    ∧ (isOutdated h (UpdateMachine h m) = false →
        keepAliveTickStep h m .updateCheckTick = none)
    ∧ (isOutdated h (UpdateMachine h m) = true →
        keepAliveTickStep h m .updateCheckTick = some .updateSignal)
    ∧ (∀ nows : List Nat, isOutdated h m = false →
        runUpdateSignals h m nows = ([], m)) := by
  refine ⟨?_, ?_, ?_, ?_, ?_⟩
  · intro hf; simp [pollNetMapStreamStep, hf]
  · intro ht; simp [pollNetMapStreamStep, ht]
  · intro hf; simp [keepAliveTickStep, hf]
  · intro ht; simp [keepAliveTickStep, ht]
  · intro nows hf
    induction nows with
    | nil => rfl
    | cons n ns ih => simp [runUpdateSignals, pollNetMapStreamStep, hf, ih]

theorem C3_witness :
    (isOutdated hs1 m0 = true
      ∧ (pollNetMapStreamStep hs1 m0 7 .updateSignal).wrote = [.mapData]
      ∧ (pollNetMapStreamStep hs1 m0 7 .updateSignal).machine.lastSuccessfulUpdate
          = some 7)
    ∧ (isOutdated hs1 m1 = false
      ∧ runUpdateSignals hs1 m1 [8, 9, 10] = ([], m1)) :=
  ⟨⟨by decide, (C3_update_signal_gate hs1 m0 7).2.1 (by decide)⟩,
   ⟨by decide, (C3_update_signal_gate hs1 m1 7).2.2.2.2 [8, 9, 10] (by decide)⟩⟩

/-! ### C4 — keep-alive frames touch only `last_seen` -/

/-- C4: a keep-alive frame stamps `last_seen` with the current instant
and leaves `last_successful_update` unchanged; the only stream arms that
move `last_successful_update` are the full-map writes (initial poll data,
or an update signal that found the node outdated). -/
theorem C4_keep_alive_last_seen (h : Headscale) (m : Machine) (now : Nat) :
    (pollNetMapStreamStep h m now .keepAliveMsg).wrote = [.keepAliveData]
    ∧ (pollNetMapStreamStep h m now .keepAliveMsg).machine.lastSeen = some now
    ∧ (pollNetMapStreamStep h m now .keepAliveMsg).machine.lastSuccessfulUpdate
        = m.lastSuccessfulUpdate
    ∧ (pollNetMapStreamStep h m now .pollData).machine.lastSuccessfulUpdate = some now
    ∧ (∀ ev : StreamEvent,
        (pollNetMapStreamStep h m now ev).machine.lastSuccessfulUpdate
            ≠ m.lastSuccessfulUpdate →
        ev = .pollData ∨ (ev = .updateSignal ∧ isOutdated h m = true)) := by
  refine ⟨rfl, rfl, rfl, rfl, ?_⟩
  intro ev hne
  cases ev with
  | pollData => exact Or.inl rfl
  | keepAliveMsg => simp [pollNetMapStreamStep] at hne
  | updateSignal =>
    cases ho : isOutdated h m with
    | false => simp [pollNetMapStreamStep, ho] at hne
    | true => exact Or.inr ⟨rfl, rfl⟩
  | disconnect => simp [pollNetMapStreamStep] at hne

theorem C4_witness :
    ((pollNetMapStreamStep hs1 m0 9 .updateSignal).machine.lastSuccessfulUpdate
        ≠ m0.lastSuccessfulUpdate)
    ∧ (StreamEvent.updateSignal = .pollData
        ∨ (StreamEvent.updateSignal = .updateSignal ∧ isOutdated hs1 m0 = true)) :=
  ⟨by decide, (C4_keep_alive_last_seen hs1 m0 9).2.2.2.2 .updateSignal (by decide)⟩

/-! ### C9 — OmitPeers + Stream is rejected (for a non-read-only request) -/

/-- C9 (amended): a decoded map request with `ReadOnly=false`,
`OmitPeers=true` and `Stream=true` is answered with HTTP 400 — no map
data, no streaming session, no peer notification.  (A read-only request
takes the bootstrap branch first; see the counterexample.) -/
theorem C9_omitpeers_stream_rejected (h : Headscale) (m : Machine)
    (req : MapRequest) (now : Nat) (hro : req.readOnly = false)
    (hop : req.omitPeers = true) (hst : req.stream = true) :
    (pollNetMapHandler h m req now).trace
        = [.save, .advanceEpoch, .respondError 400]
    ∧ Act.writeMapData ∉ (pollNetMapHandler h m req now).trace
    ∧ Act.streamSession ∉ (pollNetMapHandler h m req now).trace
    ∧ Act.notifyPeers ∉ (pollNetMapHandler h m req now).trace := by
  simp [pollNetMapHandler, hro, hop, hst]

/-- An empty host-info payload. -/
def hi0 : HostInfo := ⟨"node", []⟩

/-- A read-only request that also sets OmitPeers and Stream. -/
def reqROOS : MapRequest :=
  { readOnly := true, omitPeers := true, stream := true, hostinfo := hi0,
    endpoints := [], discoKey := "" }

/-- The claim fails without the read-only guard: a read-only request with
`OmitPeers=true, Stream=true` is answered 200 with map data, not 400. -/
theorem C9_counterexample :
    reqROOS.omitPeers = true ∧ reqROOS.stream = true
    ∧ (pollNetMapHandler hs0 m0 reqROOS 5).trace = [.save, .writeMapData]
    ∧ Act.writeMapData ∈ (pollNetMapHandler hs0 m0 reqROOS 5).trace
    ∧ Act.respondError 400 ∉ (pollNetMapHandler hs0 m0 reqROOS 5).trace := by
  decide

/-- The non-read-only instance the amended claim covers. -/
def reqOS : MapRequest := { reqROOS with readOnly := false }

theorem C9_witness :
    (pollNetMapHandler hs0 m0 reqOS 5).trace
        = [.save, .advanceEpoch, .respondError 400]
    ∧ Act.writeMapData ∉ (pollNetMapHandler hs0 m0 reqOS 5).trace
    ∧ Act.streamSession ∉ (pollNetMapHandler hs0 m0 reqOS 5).trace
    ∧ Act.notifyPeers ∉ (pollNetMapHandler hs0 m0 reqOS 5).trace :=
  C9_omitpeers_stream_rejected hs0 m0 reqOS 5 rfl rfl rfl

/-! ### C10 — epoch advance on non-read-only requests -/

/-- C10: a successfully decoded non-read-only map request sets
`last_state_change` to the current instant before any map bytes go out,
after which exactly the machines whose `last_successful_update` predates
the request are outdated; a read-only request moves neither the epoch
nor the machine's endpoints or `last_seen`. -/
theorem C10_epoch_advance (h : Headscale) (m : Machine) (req : MapRequest)
    (now : Nat) :
    (req.readOnly = false →
        (pollNetMapHandler h m req now).server.lastStateChange = now
        ∧ epochBeforeData (pollNetMapHandler h m req now).trace = true
        ∧ Act.advanceEpoch ∈ (pollNetMapHandler h m req now).trace
        ∧ (∀ m' : Machine,
            isOutdated (pollNetMapHandler h m req now).server m' = true
              ↔ m'.lastSuccessfulUpdate.getD 0 < now))
    ∧ (req.readOnly = true →
        (pollNetMapHandler h m req now).server = h
        ∧ (pollNetMapHandler h m req now).machine.endpoints = m.endpoints
        ∧ (pollNetMapHandler h m req now).machine.lastSeen = m.lastSeen) := by
  constructor
  · intro hro
    cases hop : req.omitPeers <;> cases hst : req.stream <;>
      simp [pollNetMapHandler, setLastStateChangeToNow, epochBeforeData,
            isOutdated, hro, hop, hst]
  · intro hro
    simp [pollNetMapHandler, hro]

theorem C10_witness :
    ((pollNetMapHandler hs0 m1 reqOS 9).server.lastStateChange = 9
      ∧ (isOutdated (pollNetMapHandler hs0 m1 reqOS 9).server m1 = true ↔ 5 < 9))
    ∧ ((pollNetMapHandler hs0 m1 reqROOS 9).server = hs0
      ∧ (pollNetMapHandler hs0 m1 reqROOS 9).machine.lastSeen = m1.lastSeen) :=
  ⟨⟨((C10_epoch_advance hs0 m1 reqOS 9).1 rfl).1,
    ((C10_epoch_advance hs0 m1 reqOS 9).1 rfl).2.2.2 m1⟩,
   ⟨((C10_epoch_advance hs0 m1 reqROOS 9).2 rfl).1,
    ((C10_epoch_advance hs0 m1 reqROOS 9).2 rfl).2.2⟩⟩

/-! ### C5 — the alias alternation order -/

/-- C5: `expandAlias` tries exactly the spec's alternatives in order —
`*`; `group:` member IPs; owner-gated `tag:` expansion; an existing
namespace's node IPs; a `hosts` literal; an IP literal yielding itself;
a CIDR literal yielding itself; otherwise `invalid_user_section`. -/
theorem C5_alias_alternation (h : Headscale) (al : String) :
    expandAlias h al = expandAliasSpec h al := by
  unfold expandAlias expandAliasSpec GetNamespace ListMachinesInNamespace
  cases hstar : (al == "*")
  · cases hgr : strStartsWith al "group:"
    · cases htag : strStartsWith al "tag:"
      · cases hns : h.namespaces.contains al
        · have hns' : al ∉ h.namespaces := by simpa using hns
          simp [hstar, hgr, htag, hns']
        · have hns' : al ∈ h.namespaces := by simpa using hns
          simp [hstar, hgr, htag, hns']
      · cases he : expandTagOwners h al <;>
          simp [hstar, hgr, htag, he, Except.map]
    · cases hg : expandGroup h al <;>
        simp [hstar, hgr, hg, Except.bind]
  · simp [hstar]

/-! ### C6 — destination port tokens -/

/-- A strengthening of `List.mapM` over `Except` to the explicit loop:
the comma loop of `expandPorts` is the portion parser mapped in order
with the first failure returned. -/
theorem expandPortsAux_eq_mapM (l : List String) :
    expandPortsAux l = l.mapM portRangeOfToken := by
  induction l with
  | nil => rfl
  | cons p rest ih =>
    rw [List.mapM_cons]
    unfold expandPortsAux
    rw [ih]
    cases hsp : strSplit p '-' with
    | nil =>
      have hpt : portRangeOfToken p = .error .invalidPortFormat := by
        unfold portRangeOfToken; rw [hsp]
      rw [hpt]; rfl
    | cons a tl =>
      cases tl with
      | nil =>
        have hpt : portRangeOfToken p
            = (parseUint16 a).map (fun v => PortRange.mk v v) := by
          unfold portRangeOfToken; rw [hsp]
        rw [hpt]
        dsimp only
        cases hp : parseUint16 a with
        | error e => rfl
        | ok v =>
          cases hrest : rest.mapM portRangeOfToken with
          | error e => rfl
          | ok ps => rfl
      | cons b tl2 =>
        cases tl2 with
        | nil =>
          have hpt : portRangeOfToken p
              = (parseUint16 a).bind
                  (fun x => (parseUint16 b).map (fun y => PortRange.mk x y)) := by
            unfold portRangeOfToken; rw [hsp]
          rw [hpt]
          dsimp only
          cases hp : parseUint16 a with
          | error e => rfl
          | ok v =>
            cases hq : parseUint16 b with
            | error e => rfl
            | ok w =>
              cases hrest : rest.mapM portRangeOfToken with
              | error e => rfl
              | ok ps => rfl
        | cons c tl3 =>
          have hpt : portRangeOfToken p = .error .invalidPortFormat := by
            unfold portRangeOfToken; rw [hsp]
          rw [hpt]; rfl

/-- C6 (amended): a dest token splitting on `:` into fewer than 2 or more
than 3 tokens is `invalid_port_format`; the trailing port-spec expands
`*` to `[0,65535]` and a comma list of `N`/`N-M` decimals to their
ranges, each bound 16-bit range-checked; a portion with more than one
dash is `invalid_port_format`, while a bound that is not a decimal
numeral (or exceeds 65535) surfaces the `strconv` parse error instead. -/
theorem C6_dest_port_parsing (h : Headscale) (d s : String) :
    ((strSplit d ':').length < 2 ∨ (strSplit d ':').length > 3 →
        generateACLPolicyDestPorts h d = .error .invalidPortFormat)
    ∧ generateACLPolicyDestPorts h "foo:bar:baz:qux" = .error .invalidPortFormat
    ∧ expandPorts s = expandPortsSpec s
    ∧ expandPorts "*" = .ok [PortRange.mk 0 65535]
    ∧ expandPorts "80,443,8000-8100"
        = .ok [PortRange.mk 80 80, PortRange.mk 443 443, PortRange.mk 8000 8100]
    ∧ parseUint16 "abc" = .error .strconvSyntax
    ∧ parseUint16 "70000" = .error .strconvRange := by
  refine ⟨?_, rfl, ?_, rfl, rfl, rfl, rfl⟩
  · intro hlen
    unfold generateACLPolicyDestPorts
    rcases hlen with hl | hr
    · simp [hl, Nat.not_lt_of_lt]
    · simp [hr]
  · unfold expandPorts expandPortsSpec
    cases hstar : (s == "*")
    · simp [hstar, expandPortsAux_eq_mapM]
    · simp [hstar]

/-- C6 fails as stated: a non-numeric port portion yields the `strconv`
syntax error, not `invalid_port_format`. -/
theorem C6_counterexample :
    generateACLPolicyDestPorts hs0 "10.0.0.0/8:abc" = .error .strconvSyntax
    ∧ (Except.error Error.strconvSyntax
        ≠ (.error .invalidPortFormat : Except Error (List NetPortRange))) := by
  decide

theorem C6_witness :
    generateACLPolicyDestPorts hs0 "10.0.0.0" = .error .invalidPortFormat
    ∧ expandPorts "80,443,8000-8100" = expandPortsSpec "80,443,8000-8100" :=
  ⟨(C6_dest_port_parsing hs0 "10.0.0.0" "").1 (by decide),
   (C6_dest_port_parsing hs0 "" "80,443,8000-8100").2.2.1⟩

/-! ### C8 — rule emission -/

/-- When every entry passes the gates, the ACL loop emits one rule per
entry in policy order, built from the concatenated user expansion and
the concatenated dest expansion. -/
theorem generateACLRulesAux_ok (h : Headscale) (l : List ACL)
    (hok : ∀ acl ∈ l, acl.action = "accept"
        ∧ (expandSrcs h acl.users).isOk = true
        ∧ (expandDests h acl.ports).isOk = true) :
    generateACLRulesAux h l = .ok (l.map (fun acl =>
      FilterRule.mk ((expandSrcs h acl.users).toOption.getD [])
        ((expandDests h acl.ports).toOption.getD []))) := by
  induction l with
  | nil => rfl
  | cons acl rest ih =>
    have ha := (hok acl (by simp)).1
    have hs := (hok acl (by simp)).2.1
    have hd := (hok acl (by simp)).2.2
    unfold generateACLRulesAux
    cases hsrc : expandSrcs h acl.users with
    | error e => simp [Except.isOk, Except.toBool, hsrc] at hs
    | ok v =>
      cases hdst : expandDests h acl.ports with
      | error e => simp [Except.isOk, Except.toBool, hdst] at hd
      | ok w =>
        rw [ih (fun a ha' => hok a (List.mem_cons_of_mem _ ha'))]
        simp [ha, hsrc, hdst, Except.toOption]

/-- When every entry expands but some entry carries another action, the
loop fails with `invalid_action`. -/
theorem generateACLRulesAux_bad_action (h : Headscale) (l : List ACL)
    (hok : ∀ acl ∈ l, (expandSrcs h acl.users).isOk = true
        ∧ (expandDests h acl.ports).isOk = true)
    (hbad : ∃ acl ∈ l, acl.action ≠ "accept") :
    generateACLRulesAux h l = .error .invalidAction := by
  induction l with
  | nil => exact absurd hbad (by simp)
  | cons acl rest ih =>
    unfold generateACLRulesAux
    by_cases ha : acl.action = "accept"
    · have hbad' : ∃ a ∈ rest, a.action ≠ "accept" := by
        rcases hbad with ⟨a, hmem, hne⟩
        rcases List.mem_cons.mp hmem with h1 | h2
        · exact absurd (h1 ▸ ha) hne
        · exact ⟨a, h2, hne⟩
      have hs := (hok acl (by simp)).1
      have hd := (hok acl (by simp)).2
      cases hsrc : expandSrcs h acl.users with
      | error e => simp [Except.isOk, Except.toBool, hsrc] at hs
      | ok v =>
        cases hdst : expandDests h acl.ports with
        | error e => simp [Except.isOk, Except.toBool, hdst] at hd
        | ok w =>
          rw [ih (fun a ha' => hok a (List.mem_cons_of_mem _ ha')) hbad']
          simp [ha]
    · simp [ha]

/-- A two-token dest whose alias and port-spec both expand produces the
cross product of dest IPs and port ranges. -/
theorem destPorts_cross (h : Headscale) (d a ps : String) (E : List String)
    (P : List PortRange) (hsp : strSplit d ':' = [a, ps])
    (hE : expandAlias h a = .ok E) (hP : expandPorts ps = .ok P) :
    generateACLPolicyDestPorts h d
      = .ok ((E.map (fun ip => P.map (fun p => NetPortRange.mk ip p))).flatten) := by
  unfold generateACLPolicyDestPorts
  rw [hsp]
  simp [hE, hP]

/-- C8 (amended): when every entry's action is `accept` and every alias
expands, generation emits one `FilterRule` per ACL entry in policy
order, with `SrcIPs` the concatenated user expansion and `DstPorts` the
cross product of each dest's IPs with its port ranges; when every alias
expands but some entry carries another action, generation fails with
`invalid_action` and no rule list is produced.  (Entries are processed
in order and the first error wins, so an expansion failure in an earlier
entry can pre-empt `invalid_action` — see the counterexample.) -/
theorem C8_rule_emission (h : Headscale) :
    ((∀ acl ∈ h.aclPolicy.acls, acl.action = "accept"
        ∧ (expandSrcs h acl.users).isOk = true
        ∧ (expandDests h acl.ports).isOk = true) →
      generateACLRules h = .ok (h.aclPolicy.acls.map (fun acl =>
        FilterRule.mk ((expandSrcs h acl.users).toOption.getD [])
          ((expandDests h acl.ports).toOption.getD []))))
    ∧ ((∀ acl ∈ h.aclPolicy.acls,
          (expandSrcs h acl.users).isOk = true
          ∧ (expandDests h acl.ports).isOk = true) →
        (∃ acl ∈ h.aclPolicy.acls, acl.action ≠ "accept") →
        generateACLRules h = .error .invalidAction)
    ∧ (∀ d a ps E P, strSplit d ':' = [a, ps] →
        expandAlias h a = .ok E → expandPorts ps = .ok P →
        generateACLPolicyDestPorts h d
          = .ok ((E.map (fun ip => P.map (fun p => NetPortRange.mk ip p))).flatten)) :=
  ⟨fun hok => generateACLRulesAux_ok h _ hok,
   fun hok hbad => generateACLRulesAux_bad_action h _ hok hbad,
   fun d a ps E P hsp hE hP => destPorts_cross h d a ps E P hsp hE hP⟩

/-- A policy whose first entry fails user expansion and whose second
entry has a rejected action. -/
def hC8bad : Headscale :=
  { hs0 with aclPolicy := ⟨[], [], [], [ACL.mk "accept" ["%"] [], ACL.mk "reject" [] []]⟩ }

/-- C8 fails as stated: an ACL entry with action ≠ `accept` exists, yet
generation fails with `invalid_user_section` (the earlier entry's
expansion error), not `invalid_action`. -/
theorem C8_counterexample :
    generateACLRules hC8bad = .error .invalidUserSection
    ∧ (∃ acl ∈ hC8bad.aclPolicy.acls, acl.action ≠ "accept")
    ∧ (Except.error Error.invalidUserSection
        ≠ (.error .invalidAction : Except Error (List FilterRule))) :=
  ⟨by decide, ⟨ACL.mk "reject" [] [], by decide, by decide⟩, by decide⟩

/-- S3-like policy: one accepted entry. -/
def hAccept : Headscale :=
  { hs0 with aclPolicy := ⟨[], [], [], [ACL.mk "accept" ["*"] ["*:22"]]⟩ }

/-- A policy whose entries all expand but whose second action is
`reject`. -/
def hRejectOnly : Headscale :=
  { hs0 with aclPolicy := ⟨[], [], [], [ACL.mk "accept" [] [], ACL.mk "reject" [] []]⟩ }

theorem C8_witness :
    generateACLRules hAccept = .ok (hAccept.aclPolicy.acls.map (fun acl =>
        FilterRule.mk ((expandSrcs hAccept acl.users).toOption.getD [])
          ((expandDests hAccept acl.ports).toOption.getD [])))
    ∧ generateACLRules hRejectOnly = .error .invalidAction :=
  ⟨(C8_rule_emission hAccept).1 (by decide),
   (C8_rule_emission hRejectOnly).2.1 (by decide)
     ⟨ACL.mk "reject" [] [], by decide, by decide⟩⟩

/-! ### C1 — owner-gated tag expansion -/

/-- A successful `expandGroup` pins down the policy's group entry. -/
theorem lookup_of_expandGroup_ok (h : Headscale) (ow : String) (gs : List String)
    (hg : expandGroup h ow = .ok gs) : h.aclPolicy.groups.lookup ow = some gs := by
  unfold expandGroup at hg
  cases hlk : h.aclPolicy.groups.lookup ow with
  | none => rw [hlk] at hg; cases hg
  | some gs' =>
    rw [hlk] at hg
    by_cases hnest : gs'.any (fun g => strStartsWith g "group:") = true
    · simp [hnest] at hg
    · simp [hnest] at hg
      rw [hg]

/-- When every group among the owners expands, the owner loop returns
exactly the spec's one-level expansion. -/
theorem expandTagOwnersAux_eq_ownersOf (h : Headscale) (ows : List String)
    (hg : ∀ ow ∈ ows, strStartsWith ow "group:" = true →
        (expandGroup h ow).isOk = true) :
    expandTagOwnersAux h ows = .ok (ownersOf h ows) := by
  induction ows with
  | nil => rfl
  | cons ow rest ih =>
    unfold expandTagOwnersAux
    cases hpre : strStartsWith ow "group:" with
    | false =>
      rw [ih (fun o ho hp => hg o (List.mem_cons_of_mem _ ho) hp)]
      simp [ownersOf, hpre]
    | true =>
      have hok := hg ow (by simp) hpre
      cases hge : expandGroup h ow with
      | error e => simp [Except.isOk, Except.toBool, hge] at hok
      | ok gs =>
        have hlk := lookup_of_expandGroup_ok h ow gs hge
        rw [ih (fun o ho hp => hg o (List.mem_cons_of_mem _ ho) hp)]
        simp [ownersOf, hpre, hlk]

/-- IPs a machine contributes under a tag: exactly its addresses, and
only when its stored host info requests the tag. -/
theorem mem_machineTagIPs (al ip : String) (m : Machine) :
    ip ∈ machineTagIPs al m ↔
      (∃ hi, m.hostInfo = some hi ∧ al ∈ hi.requestTags) ∧ ip ∈ m.ipAddresses := by
  unfold machineTagIPs
  cases hh : m.hostInfo with
  | none => simp
  | some hi =>
    simp only [List.mem_flatten, List.mem_map, List.mem_filter, Option.some.injEq]
    constructor
    · rintro ⟨l, ⟨t, ⟨htl, hbeq⟩, rfl⟩, hip⟩
      exact ⟨⟨hi, rfl, by rwa [eq_of_beq hbeq]⟩, hip⟩
    · rintro ⟨⟨hi', hhi', htag⟩, hip⟩
      cases hhi'
      exact ⟨m.ipAddresses, ⟨al, ⟨htag, by simp⟩, rfl⟩, hip⟩

/-- Membership in the tag-branch result: an IP is emitted iff some
machine of an owner namespace requests the tag and carries it — under
the store invariant that every machine's namespace exists. -/
theorem mem_tagOwnerIPs (h : Headscale) (al ip : String) (owners : List String)
    (hwf : ∀ m ∈ h.machines, h.namespaces.contains m.namespaceName = true) :
    ip ∈ tagOwnerIPs h al owners ↔
      ∃ m, m ∈ h.machines ∧ m.namespaceName ∈ owners
        ∧ (∃ hi, m.hostInfo = some hi ∧ al ∈ hi.requestTags)
        ∧ ip ∈ m.ipAddresses := by
  induction owners with
  | nil => simp [tagOwnerIPs]
  | cons ns rest ih =>
    have hsplit : tagOwnerIPs h al (ns :: rest)
        = (match ListMachinesInNamespace h ns with
           | .error _ => []
           | .ok ms => (ms.map (machineTagIPs al)).flatten) ++ tagOwnerIPs h al rest := rfl
    rw [hsplit, List.mem_append, ih]
    unfold ListMachinesInNamespace
    cases hc : h.namespaces.contains ns
    · rw [if_neg (by simp)]
      dsimp only
      constructor
      · rintro (hfalse | ⟨m, hm, hmem, htag, hip⟩)
        · simp at hfalse
        · exact ⟨m, hm, List.mem_cons_of_mem _ hmem, htag, hip⟩
      · rintro ⟨m, hm, hmem, htag, hip⟩
        rcases List.mem_cons.mp hmem with he | hr
        · have hcm := hwf m hm
          rw [he, hc] at hcm
          cases hcm
        · exact Or.inr ⟨m, hm, hr, htag, hip⟩
    · rw [if_pos rfl]
      dsimp only
      constructor
      · rintro (hblock | ⟨m, hm, hmem, htag, hip⟩)
        · rcases List.mem_flatten.mp hblock with ⟨l, hl, hipl⟩
          rcases List.mem_map.mp hl with ⟨m, hmf, rfl⟩
          rcases List.mem_filter.mp hmf with ⟨hm, hns_eq⟩
          rcases (mem_machineTagIPs al ip m).mp hipl with ⟨htag, hip⟩
          exact ⟨m, hm, List.mem_cons.mpr (Or.inl (by simpa using hns_eq)), htag, hip⟩
        · exact ⟨m, hm, List.mem_cons_of_mem _ hmem, htag, hip⟩
      · rintro ⟨m, hm, hmem, htag, hip⟩
        rcases List.mem_cons.mp hmem with he | hr
        · exact Or.inl (List.mem_flatten.mpr
            ⟨machineTagIPs al m,
             List.mem_map.mpr ⟨m, List.mem_filter.mpr ⟨hm, by simp [he]⟩, rfl⟩,
             (mem_machineTagIPs al ip m).mpr ⟨htag, hip⟩⟩)
        · exact Or.inr ⟨m, hm, hr, htag, hip⟩

/-- C1 (amended): for a tag alias, a missing `tag_owners` entry is
`invalid_tag`; when the entry exists and every group among its owners is
defined, the expansion succeeds and contains an IP exactly when some
machine of an owner namespace (listed directly or via one level of
group expansion) requests the tag in its host info — a machine of a
non-owner namespace contributes nothing; an owner naming an undefined
(or nested) group yields `invalid_group` instead (see the
counterexample). -/
theorem C1_tag_owner_gate (h : Headscale) (al : String)
    (hstar : (al == "*") = false)
    (hgr : strStartsWith al "group:" = false)
    (htag : strStartsWith al "tag:" = true)
    (hwf : ∀ m ∈ h.machines, h.namespaces.contains m.namespaceName = true) :
    (h.aclPolicy.tagOwners.lookup al = none →
        expandAlias h al = .error .invalidTag)
    ∧ (∀ ows, h.aclPolicy.tagOwners.lookup al = some ows →
        (∀ ow ∈ ows, strStartsWith ow "group:" = true →
            (expandGroup h ow).isOk = true) →
        expandAlias h al = .ok (tagOwnerIPs h al (ownersOf h ows))
        ∧ (∀ ip, ip ∈ tagOwnerIPs h al (ownersOf h ows) ↔
            ∃ m, m ∈ h.machines ∧ m.namespaceName ∈ ownersOf h ows
              ∧ (∃ hi, m.hostInfo = some hi ∧ al ∈ hi.requestTags)
              ∧ ip ∈ m.ipAddresses)) := by
  constructor
  · intro hnone
    unfold expandAlias expandTagOwners
    simp [hstar, hgr, htag, hnone]
  · intro ows hsome hg
    constructor
    · unfold expandAlias expandTagOwners
      simp [hstar, hgr, htag, hsome, expandTagOwnersAux_eq_ownersOf h ows hg]
    · intro ip
      exact mem_tagOwnerIPs h al ip (ownersOf h ows) hwf

/-- A policy whose tag owner is an undefined group. -/
def hC1bad : Headscale :=
  { hs0 with aclPolicy := ⟨[], [("tag:web", ["group:nope"])], [], []⟩ }

/-- C1 fails as stated: the `tag_owners` entry exists, so the claim
promises the machine-IP list (here `[]`), but the code answers
`invalid_group` for the undefined owner group. -/
theorem C1_counterexample :
    hC1bad.aclPolicy.tagOwners.lookup "tag:web" = some ["group:nope"]
    ∧ expandAlias hC1bad "tag:web" = .error .invalidGroup
    ∧ (Except.error Error.invalidGroup ≠ (.ok [] : Except Error (List String))) := by
  refine ⟨by decide, by decide, by decide⟩

/-- The S4 scenario: alice owns `tag:web`; nodes in alice and bob both
request it. -/
def hS4 : Headscale :=
  { namespaces := ["alice", "bob"],
    machines :=
      [{ id := 1, name := "a1", namespaceName := "alice",
         ipAddresses := ["100.64.0.3"], hostInfo := some ⟨"a1", ["tag:web"]⟩,
         endpoints := [], discoKey := "", lastSeen := none,
         lastSuccessfulUpdate := none },
       { id := 2, name := "b1", namespaceName := "bob",
         ipAddresses := ["100.64.0.4"], hostInfo := some ⟨"b1", ["tag:web"]⟩,
         endpoints := [], discoKey := "", lastSeen := none,
         lastSuccessfulUpdate := none }],
    aclPolicy := ⟨[], [("tag:web", ["alice"])], [], []⟩,
    aclRules := [], lastStateChange := 0 }

theorem C1_witness :
    expandAlias hS4 "tag:web" = .ok (tagOwnerIPs hS4 "tag:web" (ownersOf hS4 ["alice"]))
    ∧ tagOwnerIPs hS4 "tag:web" (ownersOf hS4 ["alice"]) = ["100.64.0.3"] :=
  ⟨((C1_tag_owner_gate hS4 "tag:web" rfl rfl rfl (by decide)).2
      ["alice"] (by decide) (by decide)).1,
   by decide⟩

/-! ### C7 — the OIDC state token -/

/-- Hex encoding yields two characters per byte. -/
theorem hexChars_length (bs : List Nat) : (hexChars bs).length = 2 * bs.length := by
  induction bs with
  | nil => rfl
  | cons b rest ih =>
    simp [hexChars, ih]
    omega

/-- A nibble renders as a hexadecimal character. -/
theorem isHexDigit_hexDigitOf (n : Nat) (hn : n < 16) :
    isHexDigit (hexDigitOf n) = true := by
  interval_cases n <;> decide

/-- Hex encoding of bytes yields only hexadecimal characters. -/
theorem hexChars_all_hex (bs : List Nat) (hb : ∀ b ∈ bs, b < 256) :
    (hexChars bs).all isHexDigit = true := by
  induction bs with
  | nil => rfl
  | cons b rest ih =>
    have hb1 : b < 256 := hb b (by simp)
    simp only [hexChars, List.all_cons, Bool.and_eq_true]
    exact ⟨isHexDigit_hexDigitOf _ (Nat.div_lt_of_lt_mul (by omega)),
           ⟨isHexDigit_hexDigitOf _ (Nat.mod_lt _ (by omega)),
            ih (fun x hx => hb x (List.mem_cons_of_mem _ hx))⟩⟩

/-- A completed auth-callback registration does not touch the state
cache. -/
theorem registerCallback_cache (s : OIDCState) (mk ns : String) (s2 : OIDCState)
    (hr : RegisterMachineFromAuthCallback s mk ns = some s2) :
    s2.registrationCache = s.registrationCache := by
  unfold RegisterMachineFromAuthCallback at hr
  split at hr
  · simp only [Option.some.injEq] at hr
    rw [← hr]
  · cases hr

/-- C7 (amended): `RegisterOIDC` stores the machine key in the
registration cache under a fresh 32-character hexadecimal state token;
`OIDCCallback` never removes the state token from the cache, so a second
callback with the same state value within the cache TTL is answered with
the reauthentication page for the machine the first callback registered
— `state has expired` is answered exactly when the state is absent from
the cache (TTL expiry or restart), not because the first callback
consumed it. -/
theorem C7_oidc_state_token (s : OIDCState) (mkey code state : String)
    (blob : List Nat) (claims : IDTokenClaims) :
    (blob.length = 16 → (∀ b ∈ blob, b < 256) →
        (RegisterOIDC s mkey blob).2.length = 32
        ∧ (RegisterOIDC s mkey blob).2.data.all isHexDigit = true
        ∧ (RegisterOIDC s mkey blob).1.registrationCache.lookup
            (RegisterOIDC s mkey blob).2 = some mkey)
    ∧ (OIDCCallback s code state claims).1.registrationCache = s.registrationCache
    ∧ (code ≠ "" → state ≠ "" → s.cfg.allowedDomains = [] →
        s.cfg.allowedUsers = [] →
        (s.registrationCache.lookup state = none →
            OIDCCallback s code state claims = (s, .stateExpired))
        ∧ (∀ mk ns, s.registrationCache.lookup state = some mk →
            s.machines.lookup mk = some ns →
            OIDCCallback s code state claims = (s, .reauthenticated claims.email))) := by
  refine ⟨?_, ?_, ?_⟩
  · intro hlen hb
    refine ⟨?_, ?_, ?_⟩
    · show (String.mk ((hexChars blob).take 32)).length = 32
      simp [String.length, List.length_take, hexChars_length, hlen]
    · show ((hexChars blob).take 32).all isHexDigit = true
      have hall := hexChars_all_hex blob hb
      rw [List.all_eq_true] at hall ⊢
      intro c hc
      exact hall c (List.take_subset _ _ hc)
    · simp [RegisterOIDC, List.lookup]
  · unfold OIDCCallback
    split
    · rfl
    split
    · rfl
    split
    · rfl
    split
    · rfl
    split
    · rfl
    · dsimp only
      split
      · rename_i s2 hr
        dsimp only
        rw [registerCallback_cache _ _ _ _ hr]
        split <;> rfl
      · dsimp only
        split <;> rfl
  · intro hc hst hd hu
    have h1 : (code == "") = false := beq_eq_false_iff_ne.mpr hc
    have h2 : (state == "") = false := beq_eq_false_iff_ne.mpr hst
    constructor
    · intro hnone
      unfold OIDCCallback
      simp [h1, h2, hd, hu, hnone]
    · intro mk ns hsome hmach
      unfold OIDCCallback
      simp [h1, h2, hd, hu, hsome, hmach]

/-- OIDC options: no strip, no allow lists. -/
def cfg0 : OIDCConfig := ⟨false, [], []⟩

/-- A machine `mk1` pending registration, nothing registered. -/
def oidc0 : OIDCState := ⟨[], ["mk1"], [], [], cfg0⟩

/-- Sixteen zero bytes standing in for the random blob. -/
def blob0 : List Nat := List.replicate 16 0

/-- The state token the register hand-off issues for `mk1`. -/
def tok0 : String := (RegisterOIDC oidc0 "mk1" blob0).2

/-- The state after the register hand-off. -/
def oidc1 : OIDCState := (RegisterOIDC oidc0 "mk1" blob0).1

/-- The verified claims of the authenticating user. -/
def claims0 : IDTokenClaims := ⟨"Alice", [], "alice@example.com", "alice"⟩

/-- The state after the first (registering) callback. -/
def oidc2 : OIDCState := (OIDCCallback oidc1 "authcode" tok0 claims0).1

/-- C7 fails as stated: the first callback registers the machine, yet a
second callback with the very same state token is answered with the
reauthentication page, not `state has expired` — the token was never
consumed. -/
theorem C7_counterexample :
    (OIDCCallback oidc1 "authcode" tok0 claims0).2
        = .authenticated "alice@example.com"
    ∧ (OIDCCallback oidc2 "authcode" tok0 claims0).2
        = .reauthenticated "alice@example.com"
    ∧ (OIDCCallback oidc2 "authcode" tok0 claims0).2 ≠ .stateExpired := by
  refine ⟨by decide, by decide, by decide⟩

theorem C7_witness :
    (RegisterOIDC oidc0 "mk1" blob0).2.length = 32
    ∧ (RegisterOIDC oidc0 "mk1" blob0).1.registrationCache.lookup
        (RegisterOIDC oidc0 "mk1" blob0).2 = some "mk1"
    ∧ OIDCCallback oidc1 "authcode" "beef" claims0 = (oidc1, .stateExpired) :=
  ⟨((C7_oidc_state_token oidc0 "mk1" "x" "y" blob0 claims0).1
      (by decide) (by decide)).1,
   ((C7_oidc_state_token oidc0 "mk1" "x" "y" blob0 claims0).1
      (by decide) (by decide)).2.2,
   ((C7_oidc_state_token oidc1 "mk1" "authcode" "beef" blob0 claims0).2.2
      (by decide) (by decide) rfl rfl).1 (by decide)⟩

end headscale
